import Mathlib

/-!
Verification of the `custom-recognition` filename parser and regex synthesizer.

The Go program is shallowly embedded over `List Char` (one entry per rune; the
Go code indexes bytes, which coincides with runes on the ASCII inputs the
claims are about).  Each concrete regular expression used by the program is
compiled by hand into an executable backtracking matcher with Go's
leftmost-first semantics: the scan tries every start position from the left,
and at a position the alternatives/quantifiers are tried in Go's order
(greedy `{1,2}` tries two digits before one, `.?` tries one character before
none, lazy `.*?` tries shorter extents first).
-/

/-- Chain two optional results, preferring the first: the backtracking
combinator for regex alternation and quantifier choice. -/
def orl {α : Type} (x y : Option α) : Option α :=
  match x with
  | some r => some r
  | none => y

/-- Match a literal character sequence, returning the rest of the input. -/
def stripLit : List Char → List Char → Option (List Char)
  | [], l => some l
  | _ :: _, [] => none
  | x :: xs, c :: rest => if c = x then stripLit xs rest else none

/-- `\d{1,2}` (greedy): feed the continuation two digits if available, then
backtrack to one digit.  The capture handed to `k` is the matched digit run. -/
def digitsThen {α : Type} (k : List Char → List Char → Option α) : List Char → Option α
  | [] => none
  | c1 :: rest1 =>
    if c1.isDigit then
      match rest1 with
      | c2 :: rest2 =>
        if c2.isDigit then orl (k [c1, c2] rest2) (k [c1] (c2 :: rest2))
        else k [c1] (c2 :: rest2)
      | [] => k [c1] []
    else none

/-- Worker for `.*?` (lazy star over any non-newline character): try the
continuation on ever longer consumed spans, shortest first. -/
def lazyThenAux {α : Type} (k : List Char → List Char → Option α) (acc : List Char) :
    List Char → Option α
  | [] => k acc.reverse []
  | c :: rest =>
    orl (k acc.reverse (c :: rest))
      (if c = '\n' then none else lazyThenAux k (c :: acc) rest)

/-- `.*?` followed by the continuation `k consumed rest`. -/
def lazyThen {α : Type} (k : List Char → List Char → Option α) (l : List Char) : Option α :=
  lazyThenAux k [] l

/-- Maximal run of `\s` characters (Go's `\s` is `[\t\n\f\r ]`).  In the two
patterns using `\s*` the next required token is a digit, which is never a
space, so committing to the maximal run is exact. -/
def goIsSpace (c : Char) : Bool :=
  c = ' ' || c = '\t' || c = '\n' || c = '\x0c' || c = '\r'

/-- Split a maximal `\s*` run off the front. -/
def spanSpaces : List Char → List Char × List Char
  | [] => ([], [])
  | c :: rest =>
    if goIsSpace c then
      let p := spanSpaces rest
      (c :: p.1, p.2)
    else ([], c :: rest)

/-- Matcher for `[Ss](\d{1,2})[Ee](\d{1,2})` anchored at the head of the
input; returns (full match, season capture, episode capture). -/
def matchSEAt : List Char → Option (List Char × List Char × List Char)
  | [] => none
  | c :: rest =>
    if c = 'S' ∨ c = 's' then
      digitsThen (fun cap1 r1 =>
        match r1 with
        | [] => none
        | e :: r2 =>
          if e = 'E' ∨ e = 'e' then
            digitsThen (fun cap2 _ => some (c :: cap1 ++ e :: cap2, cap1, cap2)) r2
          else none) rest
    else none

/-- Matcher for `第(\d{1,2})集` anchored at the head; returns
(full match, episode capture).  Also the second half of the Chinese
season+episode pattern. -/
def matchCNEpAt : List Char → Option (List Char × List Char)
  | [] => none
  | c :: rest =>
    if c = '第' then
      digitsThen (fun cap r1 =>
        match r1 with
        | z :: _ => if z = '集' then some ('第' :: cap ++ ['集'], cap) else none
        | [] => none) rest
    else none

/-- Matcher for `第(\d{1,2})季.?第(\d{1,2})集` anchored at the head.
`.?` is greedy: one arbitrary non-newline character is tried before none. -/
def matchCNAt : List Char → Option (List Char × List Char × List Char)
  | [] => none
  | c :: rest =>
    if c = '第' then
      digitsThen (fun cap1 r1 =>
        match r1 with
        | j :: r2 =>
          if j = '季' then
            orl
              (match r2 with
               | x :: r3 =>
                 if x = '\n' then none
                 else
                   match matchCNEpAt r3 with
                   | some (t2, cap2) => some ('第' :: cap1 ++ '季' :: x :: t2, cap1, cap2)
                   | none => none
               | [] => none)
              (match matchCNEpAt r2 with
               | some (t2, cap2) => some ('第' :: cap1 ++ '季' :: t2, cap1, cap2)
               | none => none)
          else none
        | [] => none) rest
    else none

/-- Matcher for `Season\s*(\d{1,2}).*?Episode\s*(\d{1,2})` anchored at the
head of the input. -/
def matchSWAt (l : List Char) : Option (List Char × List Char × List Char) :=
  match stripLit "Season".data l with
  | none => none
  | some r1 =>
    let p1 := spanSpaces r1
    digitsThen (fun cap1 r3 =>
      lazyThen (fun mid r4 =>
        match stripLit "Episode".data r4 with
        | none => none
        | some r5 =>
          let p2 := spanSpaces r5
          digitsThen (fun cap2 _ =>
            some ("Season".data ++ p1.1 ++ cap1 ++ mid ++ "Episode".data ++ p2.1 ++ cap2,
              cap1, cap2)) p2.2) r3) p1.2

/-- Matcher for `[Ee](\d{1,2})[^0-9]` anchored at the head (the trailing
non-digit character is part of the full match). -/
def matchE1At : List Char → Option (List Char × List Char)
  | [] => none
  | c :: rest =>
    if c = 'E' ∨ c = 'e' then
      digitsThen (fun cap r1 =>
        match r1 with
        | x :: _ => if x.isDigit then none else some (c :: cap ++ [x], cap)
        | [] => none) rest
    else none

/-- Matcher for `[Ee]p\.?(\d{1,2})` anchored at the head. -/
def matchEpDotAt : List Char → Option (List Char × List Char)
  | [] => none
  | c :: rest =>
    if c = 'E' ∨ c = 'e' then
      match rest with
      | 'p' :: r1 =>
        orl
          (match r1 with
           | '.' :: r2 => digitsThen (fun cap _ => some (c :: 'p' :: '.' :: cap, cap)) r2
           | _ => none)
          (digitsThen (fun cap _ => some (c :: 'p' :: cap, cap)) r1)
      | _ => none
    else none

/-- Matcher for `[Ee]pisode\.?(\d{1,2})` anchored at the head. -/
def matchEpisodeAt : List Char → Option (List Char × List Char)
  | [] => none
  | c :: rest =>
    if c = 'E' ∨ c = 'e' then
      match stripLit "pisode".data rest with
      | none => none
      | some r1 =>
        orl
          (match r1 with
           | '.' :: r2 =>
             digitsThen (fun cap _ => some (c :: "pisode".data ++ '.' :: cap, cap)) r2
           | _ => none)
          (digitsThen (fun cap _ => some (c :: "pisode".data ++ cap, cap)) r1)
    else none

/-- Matcher for `EP(\d{1,2})` anchored at the head. -/
def matchEPAt : List Char → Option (List Char × List Char)
  | 'E' :: 'P' :: rest => digitsThen (fun cap _ => some ('E' :: 'P' :: cap, cap)) rest
  | _ => none

/-- Matcher for `Ep(\d{1,2})` anchored at the head. -/
def matchEpAt : List Char → Option (List Char × List Char)
  | 'E' :: 'p' :: rest => digitsThen (fun cap _ => some ('E' :: 'p' :: cap, cap)) rest
  | _ => none

/-- Leftmost match: try the anchored matcher at every start position from the
left, keeping the first success (Go's `FindStringSubmatch`). -/
def findFirst {α : Type} (m : List Char → Option α) : List Char → Option α
  | [] => m []
  | c :: rest => orl (m (c :: rest)) (findFirst m rest)

/-- There is an `S<1-2 digits>E<1-2 digits>` token somewhere in the input. -/
def hasSEToken : List Char → Bool
  | [] => false
  | c :: rest => (matchSEAt (c :: rest)).isSome || hasSEToken rest

/-- Word character for Go's ASCII `\b`: `[0-9A-Za-z_]`. -/
def isWordChar (c : Char) : Bool :=
  c.isAlphanum || c = '_'

/-- Trailing `\b` after a quality token: end of input or a non-word
character next. -/
def nonWordOrEnd : List Char → Bool
  | [] => true
  | c :: _ => !(isWordChar c)

/-- Alternative `1080[pP]` of the quality regex, with its trailing `\b`. -/
def alt1080 : List Char → Option (List Char × List Char)
  | '1' :: '0' :: '8' :: '0' :: c :: rest =>
    if (c = 'p' ∨ c = 'P') ∧ nonWordOrEnd rest then some (['1', '0', '8', '0', c], rest)
    else none
  | _ => none

/-- Alternative `720[pP]`. -/
def alt720 : List Char → Option (List Char × List Char)
  | '7' :: '2' :: '0' :: c :: rest =>
    if (c = 'p' ∨ c = 'P') ∧ nonWordOrEnd rest then some (['7', '2', '0', c], rest) else none
  | _ => none

/-- Alternative `2160[pP]`. -/
def alt2160 : List Char → Option (List Char × List Char)
  | '2' :: '1' :: '6' :: '0' :: c :: rest =>
    if (c = 'p' ∨ c = 'P') ∧ nonWordOrEnd rest then some (['2', '1', '6', '0', c], rest)
    else none
  | _ => none

/-- Alternative `4[kK]`. -/
def alt4k : List Char → Option (List Char × List Char)
  | '4' :: c :: rest =>
    if (c = 'k' ∨ c = 'K') ∧ nonWordOrEnd rest then some (['4', c], rest) else none
  | _ => none

/-- Alternative `8[kK]`. -/
def alt8k : List Char → Option (List Char × List Char)
  | '8' :: c :: rest =>
    if (c = 'k' ∨ c = 'K') ∧ nonWordOrEnd rest then some (['8', c], rest) else none
  | _ => none

/-- Alternative `480[pP]`. -/
def alt480 : List Char → Option (List Char × List Char)
  | '4' :: '8' :: '0' :: c :: rest =>
    if (c = 'p' ∨ c = 'P') ∧ nonWordOrEnd rest then some (['4', '8', '0', c], rest) else none
  | _ => none

/-- Alternative `HDR` (uppercase only in the source regex). -/
def altHDR : List Char → Option (List Char × List Char)
  | 'H' :: 'D' :: 'R' :: rest =>
    if nonWordOrEnd rest then some (['H', 'D', 'R'], rest) else none
  | _ => none

/-- Alternative `HEVC` (uppercase only in the source regex). -/
def altHEVC : List Char → Option (List Char × List Char)
  | 'H' :: 'E' :: 'V' :: 'C' :: rest =>
    if nonWordOrEnd rest then some (['H', 'E', 'V', 'C'], rest) else none
  | _ => none

/-- Alternative `H265` (uppercase only in the source regex). -/
def altH265 : List Char → Option (List Char × List Char)
  | 'H' :: '2' :: '6' :: '5' :: rest =>
    if nonWordOrEnd rest then some (['H', '2', '6', '5'], rest) else none
  | _ => none

/-- The quality alternation
`1080[pP]|720[pP]|2160[pP]|4[kK]|8[kK]|480[pP]|HDR|HEVC|H265` anchored at the
head, alternatives in the source order, each with its trailing `\b`. -/
def qualAt (l : List Char) : Option (List Char × List Char) :=
  orl (alt1080 l) (orl (alt720 l) (orl (alt2160 l) (orl (alt4k l) (orl (alt8k l)
    (orl (alt480 l) (orl (altHDR l) (orl (altHEVC l) (altH265 l))))))))

/-- Leading `\b` before a quality token: every alternative starts with a word
character, so the boundary holds exactly when the previous character (if any)
is not a word character. -/
def boundaryBefore : Option Char → Bool
  | none => true
  | some p => !(isWordChar p)

/-- `FindAllString` scan for the quality regex: walk left to right; at each
position with a satisfied leading `\b`, emit the first matching alternative
and resume after its end (`skip` counts characters of the current match still
to be stepped over). -/
def qualScanSkip : Nat → Option Char → List Char → List (List Char)
  | _, _, [] => []
  | Nat.succ k, _, c :: rest => qualScanSkip k (some c) rest
  | 0, prev, c :: rest =>
    if boundaryBefore prev then
      match qualAt (c :: rest) with
      | some (m, _) => m :: qualScanSkip (m.length - 1) (some c) rest
      | none => qualScanSkip 0 (some c) rest
    else qualScanSkip 0 (some c) rest

/-- All quality-regex matches of the input, in order of appearance. -/
def findAllQuality (l : List Char) : List (List Char) :=
  qualScanSkip 0 none l

/-- `strings.ToUpper` (the scanned tokens are ASCII). -/
def toUpperL (l : List Char) : List Char :=
  l.map Char.toUpper

/-- `strings.ToLower` (applied to ASCII titles and quality tags). -/
def toLowerL (l : List Char) : List Char :=
  l.map Char.toLower

/-- One iteration of the quality-collection loop: uppercase the match, skip
the codec tags `HEVC`/`H265`, append anything else. -/
def qualityStep (acc : List (List Char)) (m : List Char) : List (List Char) :=
  let f := toUpperL m
  if f = "HEVC".data ∨ f = "H265".data then acc else acc ++ [f]

/-- The quality-field computation of `parseFileName`: collect all matches,
uppercase, skip the codec tags `HEVC`/`H265`, join with `.`. -/
def parseQuality (l : List Char) : List Char :=
  let ms := findAllQuality l
  if ms.length > 0 then List.intercalate ['.'] (ms.foldl qualityStep [])
  else []

/-- `ensureTwoDigits`: a single digit gets a leading zero, anything else is
returned unchanged. -/
def ensureTwoDigits (num : List Char) : List Char :=
  if num.length = 1 then '0' :: num else num

/-- The parse result (`FileInfo` in the source); absent fields are empty. -/
structure FileInfo where
  fullMatch : List Char
  season : List Char
  episode : List Char
  videoFormat : List Char
deriving DecidableEq

/-- The season+episode scan: the three patterns in source order, first match
wins. -/
def seasonEpisodeScan (l : List Char) : Option (List Char × List Char × List Char) :=
  orl (findFirst matchSEAt l) (orl (findFirst matchCNAt l) (findFirst matchSWAt l))

/-- The episode-only scan: the six patterns in source order, first match
wins. -/
def episodeOnlyScan (l : List Char) : Option (List Char × List Char) :=
  orl (findFirst matchE1At l) (orl (findFirst matchCNEpAt l) (orl (findFirst matchEpDotAt l)
    (orl (findFirst matchEpisodeAt l) (orl (findFirst matchEPAt l) (findFirst matchEpAt l)))))

/-- `parseFileName`: quality scan, then the season+episode patterns, then the
episode-only patterns (season defaulting to "01"), else everything absent. -/
def parseFileName (fileName : List Char) : FileInfo :=
  let videoFormat := parseQuality fileName
  match seasonEpisodeScan fileName with
  | some (f, s, e) => ⟨f, ensureTwoDigits s, ensureTwoDigits e, videoFormat⟩
  | none =>
    match episodeOnlyScan fileName with
    | some (f, e) => ⟨f, ['0', '1'], ensureTwoDigits e, videoFormat⟩
    | none => ⟨[], [], [], videoFormat⟩

/-- A regex metacharacter in Go's `regexp.QuoteMeta`. -/
def goSpecial (c : Char) : Bool :=
  c ∈ ['\\', '.', '+', '*', '?', '(', ')', '|', '[', ']', '\x7b', '\x7d', '^', '$']

/-- `regexp.QuoteMeta`: prepend a backslash to every metacharacter. -/
def quoteMeta : List Char → List Char
  | [] => []
  | c :: rest => if goSpecial c then '\\' :: c :: quoteMeta rest else c :: quoteMeta rest

/-- Worker for `strings.ReplaceAll`: after a replacement the scan resumes
past the matched span, `skip` counting the span characters still to step
over (structural recursion in place of dropping the span at once). -/
def replaceAllAux (p r : List Char) : Nat → List Char → List Char
  | _, [] => []
  | Nat.succ k, _ :: rest => replaceAllAux p r k rest
  | 0, c :: rest =>
    if !p.isEmpty && p.isPrefixOf (c :: rest) then r ++ replaceAllAux p r (p.length - 1) rest
    else c :: replaceAllAux p r 0 rest

/-- Scan of `strings.ReplaceAll` for a non-empty pattern `p`: replace each
leftmost non-overlapping occurrence of `p` by `r` and continue after it. -/
def replaceAll (p r : List Char) (l : List Char) : List Char :=
  replaceAllAux p r 0 l

/-- `strings.Replace(s, "", new, -1)`: the replacement goes before every
character and at the end. -/
def insertEvery (r : List Char) : List Char → List Char
  | [] => r
  | c :: rest => r ++ c :: insertEvery r rest

/-- `strings.ReplaceAll(s, old, new)`, including Go's empty-pattern case. -/
def goReplaceAll (s old new : List Char) : List Char :=
  if old.isEmpty then insertEvery new s else replaceAll old new s

/-- `strings.Replace(s, old, new, 1)` for non-empty `old`: replace only the
leftmost occurrence.  Used here to model substituting a value back into the
first capture group of a synthesized pattern. -/
def replaceOnce (p r : List Char) : List Char → List Char
  | [] => []
  | c :: rest =>
    if !p.isEmpty && p.isPrefixOf (c :: rest) then r ++ List.drop (p.length - 1) rest
    else c :: replaceOnce p r rest

/-- Worker for the non-overlapping occurrence count, with the same
skip-resume scan as `replaceAllAux`. -/
def countOccAux (p : List Char) : Nat → List Char → Nat
  | _, [] => 0
  | Nat.succ k, _ :: rest => countOccAux p k rest
  | 0, c :: rest =>
    if !p.isEmpty && p.isPrefixOf (c :: rest) then 1 + countOccAux p (p.length - 1) rest
    else countOccAux p 0 rest

/-- Non-overlapping occurrence count, with the same scan as `replaceAll`. -/
def countOcc (p : List Char) (l : List Char) : Nat :=
  countOccAux p 0 l

/-- `p` occurs somewhere in the input (as a contiguous sublist). -/
def occursIn (p : List Char) : List Char → Bool
  | [] => p.isPrefixOf []
  | c :: rest => p.isPrefixOf (c :: rest) || occursIn p rest

/-- `strconv.Itoa` / integer formatting. -/
def itoa (n : Int) : List Char :=
  (toString n).data

/-- Digit run to number, most significant first. -/
def digitsToNat (l : List Char) : Nat :=
  l.foldl (fun a c => a * 10 + (c.toNat - '0'.toNat)) 0

/-- `strconv.Atoi` on the strings this program feeds it (an optional sign and
decimal digits; anything else is an error). -/
def atoi : List Char → Option Int
  | [] => none
  | '+' :: rest =>
    if !rest.isEmpty && rest.all Char.isDigit then some (digitsToNat rest) else none
  | '-' :: rest =>
    if !rest.isEmpty && rest.all Char.isDigit then some (-(digitsToNat rest : Int)) else none
  | l =>
    if l.all Char.isDigit then some (digitsToNat l) else none

/-- The capture group text `(\d{1,2})` substituted for season/episode digit
literals by the TV synthesizer. -/
def gCap : List Char := "(\\d\x7b1,2\x7d)".data

/-- The `movie` media kind tag. -/
def mediaTypeMovie : List Char := "movie".data

/-- The `tv` media kind tag. -/
def mediaTypeTV : List Char := "tv".data

/-- A synthesized find/replace rule (the two strings the program prints). -/
structure RegexRule where
  find : List Char
  replace : List Char
deriving DecidableEq

/-- The `seasonEpisodePattern` computed by the single-file TV synthesizer:
quote the full match, rewrite the season digits into `(\d{1,2})` only when no
offset was applied and the season is not the default "01", then rewrite the
episode digits. -/
def sepPattern (info : FileInfo) (seasonOffset : Int) : List Char :=
  let sep0 := quoteMeta info.fullMatch
  let sep1 :=
    if seasonOffset = 0 ∧ info.season ≠ ['0', '1'] then goReplaceAll sep0 info.season gCap
    else sep0
  goReplaceAll sep1 info.episode gCap

/-- The TV find pattern: the quoted original name with every occurrence of
the quoted full match replaced by `sepPattern` (skipped when no pattern rule
fired). -/
def tvFindPattern (originalName : List Char) (info : FileInfo) (seasonOffset : Int) :
    List Char :=
  let pat := quoteMeta originalName
  if info.fullMatch ≠ [] then
    goReplaceAll pat (quoteMeta info.fullMatch) (sepPattern info seasonOffset)
  else pat

/-- `showRegexRules` of the single-file program variant, as the find/replace
pair it prints. -/
def showRegexRules (originalName title year : List Char) (info : FileInfo)
    (mediaType : List Char) (tmdbID : Int) (seasonOffset : Int) : RegexRule :=
  let videoFormat := toLowerL info.videoFormat
  if mediaType = mediaTypeMovie then
    ⟨quoteMeta originalName,
     title ++ '.' :: year ++ '.' :: videoFormat ++ ".\x7btmdbid=".data ++ itoa tmdbID
       ++ ";type=movie\x7d".data⟩
  else
    ⟨tvFindPattern originalName info seasonOffset,
     if seasonOffset = 0 ∧ info.season ≠ ['0', '1'] then
       title ++ '.' :: year ++ ".S\\1E\\2.".data ++ videoFormat ++ ".\x7btmdbid=".data
         ++ itoa tmdbID ++ ";type=tv\x7d".data
     else
       title ++ '.' :: year ++ ".S".data ++ info.season ++ "E\\1.".data ++ videoFormat
         ++ ".\x7btmdbid=".data ++ itoa tmdbID ++ ";type=tv\x7d".data⟩

/-- One accepted pass of the interactive season-offset loop in the single-file
program: `Atoi` the current season (errors count as 0, as Go's ignored error
leaves the zero value), add the offset, reject a non-positive result (the
loop re-prompts), otherwise store the two-digit adjusted season. -/
def applySeasonOffset (season : List Char) (seasonOffset : Int) : Option (List Char) :=
  let currentSeason : Int := (atoi season).getD 0
  let newSeason := currentSeason + seasonOffset
  if newSeason ≤ 0 then none
  else some (ensureTwoDigits (itoa newSeason))

/-- Substituting the original season and episode values back into the capture
groups of a synthesized `seasonEpisodePattern`, as the replace template
assigns them: when both season and episode were rewritten the template is
`S\1E\2`, so group `\1` receives the season and the remaining groups the
episode; otherwise the template is `S<season>E\1` and every group receives
the episode. -/
def reconstitute (bothCaptured : Bool) (season episode p : List Char) : List Char :=
  if bothCaptured then replaceAll gCap episode (replaceOnce gCap season p)
  else replaceAll gCap episode p

/-- `filepath.Base` (slash-separated paths): empty path gives ".", trailing
slashes are dropped, and the last path element is returned ("/" for a
root-only path). -/
def filepathBase (p : List Char) : List Char :=
  if p.isEmpty then ['.']
  else
    let q := (p.reverse.dropWhile (· = '/')).reverse
    if q.isEmpty then ['/'] else (q.reverse.takeWhile (· ≠ '/')).reverse

/-- `strings.Index`: position of the first occurrence of `sub`, or none. -/
def indexOf (sub : List Char) : List Char → Option Nat
  | [] => if sub.isPrefixOf [] then some 0 else none
  | c :: rest =>
    if sub.isPrefixOf (c :: rest) then some 0 else (indexOf sub rest).map (· + 1)

/-- Anchored matcher for `S\d+E\d+` (capital letters, unbounded digit runs).
`\d+` is greedy and the following letter is never a digit, so the maximal
digit run is exact. -/
def seSpanAt : List Char → Bool
  | 'S' :: rest =>
    let p := List.span Char.isDigit rest
    if p.1.isEmpty then false
    else
      match p.2 with
      | 'E' :: r2 => !(List.takeWhile Char.isDigit r2).isEmpty
      | _ => false
  | _ => false

/-- `S\d+E\d+` occurs somewhere in the input (`FindStringIndex ≠ nil`). -/
def hasSESpan : List Char → Bool
  | [] => false
  | c :: rest => seSpanAt (c :: rest) || hasSESpan rest

mutual

/-- `regexp.MustCompile' \d+ '.ReplaceAllString`: every maximal digit run is
replaced by `r`. -/
def replaceDigitRuns (r : List Char) : List Char → List Char
  | [] => []
  | c :: rest =>
    if c.isDigit then r ++ digitRunRest r rest else c :: replaceDigitRuns r rest

/-- Consume the remainder of a digit run, then resume the scan. -/
def digitRunRest (r : List Char) : List Char → List Char
  | [] => []
  | c :: rest => if c.isDigit then digitRunRest r rest else c :: replaceDigitRuns r rest

end

/-- The byte-wise agreement loop of `findCommonPrefixPattern`: keep characters
while equal (or both the `#` placeholder), stop at the first disagreement. -/
def commonAgree : List Char → List Char → List Char
  | x :: a, y :: b =>
    if x = y then x :: commonAgree a b
    else if x = '#' ∧ y = '#' then '#' :: commonAgree a b
    else []
  | _, _ => []

/-- `findCommonPrefixPattern`: identical inputs pass through; otherwise digit
runs become `#` placeholders, the common agreement is taken, and placeholders
become `\d+`. -/
def findCommonPrefixPattern (a b : List Char) : List Char :=
  if a = b then a
  else
    let a' := replaceDigitRuns ['#'] a
    let b' := replaceDigitRuns ['#'] b
    goReplaceAll (commonAgree a' b') ['#'] "\\d+".data

/-- `generateRegexPattern` of the batch program variant: derive
(prefix pattern, suffix pattern, video format) from the files, or three empty
strings when the fixed title is missing from the first file or its suffix has
no `S\d+E\d+` span. -/
def generateRegexPattern (files : List (List Char)) (fixedTitle : List Char) :
    List Char × List Char × List Char :=
  match files with
  | [] => ([], [], [])
  | f :: restFiles =>
    let firstFile := filepathBase f
    let info := parseFileName firstFile
    let videoFormat := info.videoFormat
    match indexOf (toLowerL fixedTitle) (toLowerL firstFile) with
    | none => ([], [], [])
    | some idx =>
      if hasSESpan (firstFile.drop (idx + fixedTitle.length)) then
        let common := restFiles.foldl (fun cp file =>
          let fileName := filepathBase file
          match indexOf (toLowerL fixedTitle) (toLowerL fileName) with
          | none => cp
          | some currIdx => findCommonPrefixPattern cp (fileName.take currIdx))
          (firstFile.take idx)
        (replaceDigitRuns "\\d+".data (quoteMeta common),
         "S(\\d\x7b1,2\x7d)E(\\d\x7b1,2\x7d).*".data ++ quoteMeta videoFormat,
         videoFormat)
      else ([], [], [])

/-- The find pattern printed by `showBatchRegexRules`: the quoted fixed title
followed by a fixed season/episode/quality tail, independent of the computed
prefix and suffix. -/
def batchMatchPattern (fixedTitle : List Char) : List Char :=
  quoteMeta fixedTitle
    ++ "\\.?.*?[Ss](\\d\x7b1,2\x7d)[Ee](\\d\x7b1,2\x7d)\\.?.*?[0-9]+[pPkK]\\.?.*".data

/-- The replace pattern printed by `showBatchRegexRules`. -/
def batchReplacePattern (title year videoFormat : List Char) (tmdbID : Int) : List Char :=
  title ++ '.' :: year ++ ".S\\1E\\2.".data ++ videoFormat ++ ".\x7b[tmdbid=".data
    ++ itoa tmdbID ++ ";type=tv]\x7d".data

/-- The batch caller's gate in `main`: the batch rule is printed only when
both the derived prefix and suffix patterns are non-empty. -/
def emitsBatchRule (files : List (List Char)) (fixedTitle : List Char) : Bool :=
  let p := generateRegexPattern files fixedTitle
  !p.1.isEmpty && !p.2.1.isEmpty

/-- The fifteen literal strings the quality alternation can match. -/
def qualityLiterals : List (List Char) :=
  ["1080p".data, "1080P".data, "720p".data, "720P".data, "2160p".data, "2160P".data,
   "4k".data, "4K".data, "8k".data, "8K".data, "480p".data, "480P".data,
   "HDR".data, "HEVC".data, "H265".data]

/-- No occurrence of `p` in `l` starts at a position below `n`. -/
def noOccurBefore (p l : List Char) (n : Nat) : Bool :=
  (List.range n).all (fun i => !(p.isPrefixOf (l.drop i)))

/-- Boundary between the definitions of the embedding and the verification
that follows: everything below is lemmas and the claim theorems. -/
theorem orl_eq_some {α : Type} {x y : Option α} {a : α} (h : orl x y = some a) :
    x = some a ∨ (x = none ∧ y = some a) := by
  cases x with
  | some r => simp [orl] at h; simp [h]
  | none => simp [orl] at h; simp [h]

theorem findFirst_eq_some {α : Type} {m : List Char → Option α} {l : List Char} {a : α}
    (h : findFirst m l = some a) : ∃ t, m t = some a := by
  induction l with
  | nil => exact ⟨[], h⟩
  | cons c rest ih =>
    rcases orl_eq_some h with h1 | ⟨_, h2⟩
    · exact ⟨c :: rest, h1⟩
    · exact ih h2

theorem hasSEToken_findFirst {l : List Char} (h : hasSEToken l = true) :
    ∃ a, findFirst matchSEAt l = some a := by
  induction l with
  | nil => simp [hasSEToken] at h
  | cons c rest ih =>
    simp only [hasSEToken, Bool.or_eq_true] at h
    rcases h with h1 | h2
    · rcases Option.isSome_iff_exists.mp h1 with ⟨a, ha⟩
      exact ⟨a, by simp [findFirst, orl, ha]⟩
    · rcases ih h2 with ⟨a, ha⟩
      cases hm : matchSEAt (c :: rest) with
      | some b => exact ⟨b, by simp [findFirst, orl, hm]⟩
      | none => exact ⟨a, by simp [findFirst, orl, hm, ha]⟩

theorem digitsThen_bound {α : Type} {k : List Char → List Char → Option α} {l : List Char}
    {a : α} (h : digitsThen k l = some a) :
    ∃ cap rest, k cap rest = some a ∧ 1 ≤ cap.length ∧ cap.length ≤ 2 := by
  cases l with
  | nil => simp [digitsThen] at h
  | cons c1 rest1 =>
    simp only [digitsThen] at h
    split at h
    · cases rest1 with
      | nil => exact ⟨[c1], [], h, by simp, by simp⟩
      | cons c2 rest2 =>
        simp only at h
        split at h
        · rcases orl_eq_some h with h1 | ⟨_, h2⟩
          · exact ⟨[c1, c2], rest2, h1, by simp, by simp⟩
          · exact ⟨[c1], c2 :: rest2, h2, by simp, by simp⟩
        · exact ⟨[c1], c2 :: rest2, h, by simp, by simp⟩
    · exact absurd h (by simp)

theorem matchSEAt_caps {l f s e : List Char} (h : matchSEAt l = some (f, s, e)) :
    1 ≤ s.length ∧ s.length ≤ 2 ∧ 1 ≤ e.length ∧ e.length ≤ 2 := by
  cases l with
  | nil => simp [matchSEAt] at h
  | cons c rest =>
    simp only [matchSEAt] at h
    split at h
    · rcases digitsThen_bound h with ⟨cap1, r1, hk, hb1, hb2⟩
      cases r1 with
      | nil => simp at hk
      | cons ec r2 =>
        simp only at hk
        split at hk
        · rcases digitsThen_bound hk with ⟨cap2, r3, hk2, hb3, hb4⟩
          simp only [Option.some_inj, Prod.mk.injEq] at hk2
          obtain ⟨-, hs, he⟩ := hk2
          subst hs; subst he
          exact ⟨hb1, hb2, hb3, hb4⟩
        · simp at hk
    · simp at h

theorem lazyThenAux_eq_some {α : Type} {k : List Char → List Char → Option α}
    {acc l : List Char} {a : α} (h : lazyThenAux k acc l = some a) :
    ∃ mid rest, k mid rest = some a := by
  induction l generalizing acc with
  | nil => exact ⟨acc.reverse, [], h⟩
  | cons c rest ih =>
    rcases orl_eq_some h with h1 | ⟨-, h2⟩
    · exact ⟨acc.reverse, c :: rest, h1⟩
    · split at h2
      · simp at h2
      · exact ih h2

theorem matchCNAt_season_ne {l f s e : List Char} (h : matchCNAt l = some (f, s, e)) :
    s ≠ [] := by
  cases l with
  | nil => simp [matchCNAt] at h
  | cons c rest =>
    simp only [matchCNAt] at h
    split at h
    · rcases digitsThen_bound h with ⟨cap1, r1, hk, hb1, -⟩
      have hcap : s = cap1 := by
        cases r1 with
        | nil => simp at hk
        | cons j r2 =>
          simp only at hk
          split at hk
          · rcases orl_eq_some hk with h1 | ⟨-, h2⟩
            · cases r2 with
              | nil => simp at h1
              | cons x r3 =>
                simp only at h1
                split at h1
                · simp at h1
                · cases hm : matchCNEpAt r3 with
                  | some t => rw [hm] at h1; simp_all
                  | none => rw [hm] at h1; simp at h1
            · cases hm : matchCNEpAt r2 with
              | some t => rw [hm] at h2; simp_all
              | none => rw [hm] at h2; simp at h2
          · simp at hk
      intro hnil
      rw [hcap] at hnil
      simp [hnil] at hb1
    · simp at h

theorem matchSWAt_season_ne {l f s e : List Char} (h : matchSWAt l = some (f, s, e)) :
    s ≠ [] := by
  simp only [matchSWAt] at h
  split at h
  · simp at h
  · rcases digitsThen_bound h with ⟨cap1, r3, hk, hb1, -⟩
    rcases lazyThenAux_eq_some hk with ⟨mid, r4, hk2⟩
    have hcap : s = cap1 := by
      split at hk2
      · simp at hk2
      · rcases digitsThen_bound hk2 with ⟨cap2, r7, hk3, -, -⟩
        simp only [Option.some_inj, Prod.mk.injEq] at hk3
        exact hk3.2.1.symm
    intro hnil
    rw [hcap] at hnil
    simp [hnil] at hb1

theorem seasonEpisodeScan_season_ne {l f s e : List Char}
    (h : seasonEpisodeScan l = some (f, s, e)) : s ≠ [] := by
  rcases orl_eq_some h with h1 | ⟨-, h2⟩
  · rcases findFirst_eq_some h1 with ⟨t, ht⟩
    have := (matchSEAt_caps ht).1
    intro hnil
    simp [hnil] at this
  · rcases orl_eq_some h2 with h3 | ⟨-, h4⟩
    · rcases findFirst_eq_some h3 with ⟨t, ht⟩
      exact matchCNAt_season_ne ht
    · rcases findFirst_eq_some h4 with ⟨t, ht⟩
      exact matchSWAt_season_ne ht

theorem ensureTwoDigits_ne_nil {num : List Char} (h : num ≠ []) : ensureTwoDigits num ≠ [] := by
  unfold ensureTwoDigits
  split
  · simp
  · exact h

theorem ensureTwoDigits_of_length_ne_one {num : List Char} (h : num.length ≠ 1) :
    ensureTwoDigits num = num := by
  simp [ensureTwoDigits, h]

theorem occursIn_false_ne_nil {p l : List Char} (h : occursIn p l = false) : p ≠ [] := by
  intro hp
  subst hp
  cases l <;> simp [occursIn, List.isPrefixOf] at h

theorem noOccurBefore_spec {p l : List Char} {n : Nat} (h : noOccurBefore p l n = true) :
    ∀ i, i < n → p.isPrefixOf (l.drop i) = false := by
  intro i hi
  have := List.all_eq_true.mp h i (List.mem_range.mpr hi)
  simpa using this

theorem isPrefixOf_append_self (p b : List Char) : p.isPrefixOf (p ++ b) = true := by
  induction p with
  | nil => simp [List.isPrefixOf]
  | cons q qs ih => simp [List.isPrefixOf, ih]

theorem isEmpty_false_of_ne_nil {l : List Char} (h : l ≠ []) : l.isEmpty = false := by
  cases l with
  | nil => exact absurd rfl h
  | cons c rest => rfl

theorem goReplaceAll_of_ne_nil (s : List Char) {old : List Char} (new : List Char)
    (h : old ≠ []) : goReplaceAll s old new = replaceAll old new s := by
  simp [goReplaceAll, isEmpty_false_of_ne_nil h]

theorem replaceAllAux_drop (p r : List Char) (k : Nat) (l : List Char) :
    replaceAllAux p r k l = replaceAll p r (List.drop k l) := by
  induction l generalizing k with
  | nil => cases k <;> rfl
  | cons c rest ih =>
    cases k with
    | zero => rfl
    | succ k => simpa [replaceAllAux] using ih k

theorem replaceAll_cons (p r : List Char) (c : Char) (rest : List Char) :
    replaceAll p r (c :: rest) =
      if !p.isEmpty && p.isPrefixOf (c :: rest) then
        r ++ replaceAll p r (List.drop (p.length - 1) rest)
      else c :: replaceAll p r rest := by
  show replaceAllAux p r 0 (c :: rest) = _
  rw [replaceAllAux]
  rw [replaceAllAux_drop]
  rfl

theorem replaceAll_of_not_occurs {p l : List Char} (r : List Char)
    (h : occursIn p l = false) : replaceAll p r l = l := by
  induction l with
  | nil => rfl
  | cons c rest ih =>
    simp only [occursIn, Bool.or_eq_false_iff] at h
    rw [replaceAll_cons, if_neg, ih h.2]
    simp [h.1]

theorem replaceAll_split {p r : List Char} (a b : List Char) (hp : p ≠ [])
    (hA : ∀ i, i < a.length → p.isPrefixOf ((a ++ p ++ b).drop i) = false)
    (hB : occursIn p b = false) :
    replaceAll p r (a ++ p ++ b) = a ++ r ++ b := by
  induction a with
  | nil =>
    cases p with
    | nil => exact absurd rfl hp
    | cons q qs =>
      have hpre : (q :: qs).isPrefixOf (q :: (qs ++ b)) = true := by
        rw [← List.cons_append]
        exact isPrefixOf_append_self (q :: qs) b
      simp only [List.nil_append]
      rw [List.cons_append, replaceAll_cons]
      simp only [List.isEmpty_cons, Bool.not_false, Bool.true_and, hpre, if_true]
      have hdrop : List.drop ((q :: qs).length - 1) (qs ++ b) = b := by
        simp only [List.length_cons, Nat.add_sub_cancel]
        exact List.drop_left qs b
      rw [hdrop, replaceAll_of_not_occurs r hB]
  | cons c a' ih =>
    have h0 := hA 0 (by simp)
    simp only [List.drop_zero, List.cons_append] at h0
    rw [List.cons_append, List.cons_append, replaceAll_cons]
    simp only [h0, Bool.and_false, Bool.false_eq_true, if_false]
    rw [ih (fun i hi => by
      have := hA (i + 1) (by simp only [List.length_cons]; omega)
      simpa using this)]
    simp

theorem replaceOnce_cons (p r : List Char) (c : Char) (rest : List Char) :
    replaceOnce p r (c :: rest) =
      if !p.isEmpty && p.isPrefixOf (c :: rest) then r ++ List.drop (p.length - 1) rest
      else c :: replaceOnce p r rest := by
  rw [replaceOnce]

theorem replaceOnce_split {p r : List Char} (a b : List Char) (hp : p ≠ [])
    (hA : ∀ i, i < a.length → p.isPrefixOf ((a ++ p ++ b).drop i) = false) :
    replaceOnce p r (a ++ p ++ b) = a ++ r ++ b := by
  induction a with
  | nil =>
    cases p with
    | nil => exact absurd rfl hp
    | cons q qs =>
      have hpre : (q :: qs).isPrefixOf (q :: (qs ++ b)) = true := by
        rw [← List.cons_append]
        exact isPrefixOf_append_self (q :: qs) b
      simp only [List.nil_append]
      rw [List.cons_append, replaceOnce_cons]
      simp only [List.isEmpty_cons, Bool.not_false, Bool.true_and, hpre, if_true]
      simp only [List.length_cons, Nat.add_sub_cancel]
      rw [List.drop_left qs b]
  | cons c a' ih =>
    have h0 := hA 0 (by simp)
    simp only [List.drop_zero, List.cons_append] at h0
    rw [List.cons_append, List.cons_append, replaceOnce_cons]
    simp only [h0, Bool.and_false, Bool.false_eq_true, if_false]
    rw [ih (fun i hi => by
      have := hA (i + 1) (by simp only [List.length_cons]; omega)
      simpa using this)]
    simp

theorem alt1080_mem {l m r : List Char} (h : alt1080 l = some (m, r)) :
    m = "1080p".data ∨ m = "1080P".data := by
  unfold alt1080 at h
  split at h
  · split at h
    · rename_i c rest hcond
      simp only [Option.some_inj, Prod.mk.injEq] at h
      rcases hcond.1 with hc | hc <;> subst hc <;> simp [← h.1]
    · simp at h
  · simp at h

theorem alt720_mem {l m r : List Char} (h : alt720 l = some (m, r)) :
    m = "720p".data ∨ m = "720P".data := by
  unfold alt720 at h
  split at h
  · split at h
    · rename_i c rest hcond
      simp only [Option.some_inj, Prod.mk.injEq] at h
      rcases hcond.1 with hc | hc <;> subst hc <;> simp [← h.1]
    · simp at h
  · simp at h

theorem alt2160_mem {l m r : List Char} (h : alt2160 l = some (m, r)) :
    m = "2160p".data ∨ m = "2160P".data := by
  unfold alt2160 at h
  split at h
  · split at h
    · rename_i c rest hcond
      simp only [Option.some_inj, Prod.mk.injEq] at h
      rcases hcond.1 with hc | hc <;> subst hc <;> simp [← h.1]
    · simp at h
  · simp at h

theorem alt4k_mem {l m r : List Char} (h : alt4k l = some (m, r)) :
    m = "4k".data ∨ m = "4K".data := by
  unfold alt4k at h
  split at h
  · split at h
    · rename_i c rest hcond
      simp only [Option.some_inj, Prod.mk.injEq] at h
      rcases hcond.1 with hc | hc <;> subst hc <;> simp [← h.1]
    · simp at h
  · simp at h

theorem alt8k_mem {l m r : List Char} (h : alt8k l = some (m, r)) :
    m = "8k".data ∨ m = "8K".data := by
  unfold alt8k at h
  split at h
  · split at h
    · rename_i c rest hcond
      simp only [Option.some_inj, Prod.mk.injEq] at h
      rcases hcond.1 with hc | hc <;> subst hc <;> simp [← h.1]
    · simp at h
  · simp at h

theorem alt480_mem {l m r : List Char} (h : alt480 l = some (m, r)) :
    m = "480p".data ∨ m = "480P".data := by
  unfold alt480 at h
  split at h
  · split at h
    · rename_i c rest hcond
      simp only [Option.some_inj, Prod.mk.injEq] at h
      rcases hcond.1 with hc | hc <;> subst hc <;> simp [← h.1]
    · simp at h
  · simp at h

theorem altHDR_mem {l m r : List Char} (h : altHDR l = some (m, r)) : m = "HDR".data := by
  unfold altHDR at h
  split at h
  · split at h
    · simp only [Option.some_inj, Prod.mk.injEq] at h
      simp [← h.1]
    · simp at h
  · simp at h

theorem altHEVC_mem {l m r : List Char} (h : altHEVC l = some (m, r)) : m = "HEVC".data := by
  unfold altHEVC at h
  split at h
  · split at h
    · simp only [Option.some_inj, Prod.mk.injEq] at h
      simp [← h.1]
    · simp at h
  · simp at h

theorem altH265_mem {l m r : List Char} (h : altH265 l = some (m, r)) : m = "H265".data := by
  unfold altH265 at h
  split at h
  · split at h
    · simp only [Option.some_inj, Prod.mk.injEq] at h
      simp [← h.1]
    · simp at h
  · simp at h

theorem qualAt_mem {l m r : List Char} (h : qualAt l = some (m, r)) :
    m ∈ qualityLiterals := by
  unfold qualAt at h
  rcases orl_eq_some h with h1 | ⟨-, h⟩
  · rcases alt1080_mem h1 with h2 | h2 <;> simp [qualityLiterals, h2]
  rcases orl_eq_some h with h1 | ⟨-, h⟩
  · rcases alt720_mem h1 with h2 | h2 <;> simp [qualityLiterals, h2]
  rcases orl_eq_some h with h1 | ⟨-, h⟩
  · rcases alt2160_mem h1 with h2 | h2 <;> simp [qualityLiterals, h2]
  rcases orl_eq_some h with h1 | ⟨-, h⟩
  · rcases alt4k_mem h1 with h2 | h2 <;> simp [qualityLiterals, h2]
  rcases orl_eq_some h with h1 | ⟨-, h⟩
  · rcases alt8k_mem h1 with h2 | h2 <;> simp [qualityLiterals, h2]
  rcases orl_eq_some h with h1 | ⟨-, h⟩
  · rcases alt480_mem h1 with h2 | h2 <;> simp [qualityLiterals, h2]
  rcases orl_eq_some h with h1 | ⟨-, h⟩
  · simp [qualityLiterals, altHDR_mem h1]
  rcases orl_eq_some h with h1 | ⟨-, h⟩
  · simp [qualityLiterals, altHEVC_mem h1]
  simp [qualityLiterals, altH265_mem h]

theorem qualScanSkip_mem {m : List Char} (skip : Nat) (prev : Option Char) (l : List Char)
    (h : m ∈ qualScanSkip skip prev l) : m ∈ qualityLiterals := by
  induction l generalizing skip prev with
  | nil => simp [qualScanSkip] at h
  | cons c rest ih =>
    match skip with
    | Nat.succ k => exact ih k (some c) (by simpa [qualScanSkip] using h)
    | 0 =>
      simp only [qualScanSkip] at h
      split at h
      · split at h
        · rename_i pr hq
          rcases List.mem_cons.mp h with h1 | h2
          · subst h1
            exact qualAt_mem hq
          · exact ih _ _ h2
        · exact ih _ _ h
      · exact ih _ _ h

theorem foldl_qualityStep (ms : List (List Char)) (acc : List (List Char)) :
    ms.foldl qualityStep acc
      = acc ++ (ms.map toUpperL).filter
          (fun f => !(f == "HEVC".data || f == "H265".data)) := by
  induction ms generalizing acc with
  | nil => simp
  | cons m rest ih =>
    simp only [List.foldl_cons, List.map_cons, List.filter_cons]
    by_cases hc : toUpperL m = "HEVC".data ∨ toUpperL m = "H265".data
    · have hb : (toUpperL m == "HEVC".data || toUpperL m == "H265".data) = true := by
        rcases hc with h | h <;> simp [h]
      rw [show qualityStep acc m = acc from by simp [qualityStep, hc], ih]
      simp [hb]
    · have hb : (toUpperL m == "HEVC".data || toUpperL m == "H265".data) = false := by
        push_neg at hc
        simp [hc.1, hc.2]
      rw [show qualityStep acc m = acc ++ [toUpperL m] from by simp [qualityStep, hc], ih]
      simp [hb]

theorem parseQuality_eq (l : List Char) :
    parseQuality l
      = List.intercalate ['.']
          (((findAllQuality l).map toUpperL).filter
            (fun f => !(f == "HEVC".data || f == "H265".data))) := by
  unfold parseQuality
  by_cases h : (findAllQuality l).length > 0
  · rw [if_pos h, foldl_qualityStep]
    simp
  · rw [if_neg h]
    have hnil : findAllQuality l = [] := by
      cases hq : findAllQuality l with
      | nil => rfl
      | cons a b => rw [hq] at h; simp at h
    simp [hnil]
    rfl

theorem parseFileName_videoFormat (l : List Char) :
    (parseFileName l).videoFormat = parseQuality l := by
  unfold parseFileName
  cases h : seasonEpisodeScan l with
  | some x =>
    rcases x with ⟨f, s, e⟩
    simp
  | none =>
    cases h2 : episodeOnlyScan l with
    | some x =>
      rcases x with ⟨f, e⟩
      simp
    | none => simp

theorem parseFileName_of_scan {l f s e : List Char} (h : seasonEpisodeScan l = some (f, s, e)) :
    parseFileName l = ⟨f, ensureTwoDigits s, ensureTwoDigits e, parseQuality l⟩ := by
  unfold parseFileName
  rw [h]

theorem parseFileName_of_epOnly {l f e : List Char} (h1 : seasonEpisodeScan l = none)
    (h2 : episodeOnlyScan l = some (f, e)) :
    parseFileName l = ⟨f, ['0', '1'], ensureTwoDigits e, parseQuality l⟩ := by
  unfold parseFileName
  rw [h1, h2]

theorem parseFileName_of_none {l : List Char} (h1 : seasonEpisodeScan l = none)
    (h2 : episodeOnlyScan l = none) :
    parseFileName l = ⟨[], [], [], parseQuality l⟩ := by
  unfold parseFileName
  rw [h1, h2]

theorem seasonEpisodeScan_of_findSE {l f s e : List Char}
    (h : findFirst matchSEAt l = some (f, s, e)) :
    seasonEpisodeScan l = some (f, s, e) := by
  unfold seasonEpisodeScan
  rw [h]
  rfl

/-- Claim C2: for every filename containing an `S<1-2 digits>E<1-2 digits>`
token (case-insensitive markers), `parseFileName` returns the token's digits
zero-padded to two digits as season and episode, and `fullMatch` is the exact
span matched by the S..E.. rule; the rule has highest priority, so no
episode-only rule result is returned. -/
theorem seTokenParse (l : List Char) (h : hasSEToken l = true) :
    ∃ f s e, findFirst matchSEAt l = some (f, s, e)
      ∧ (parseFileName l).season = ensureTwoDigits s
      ∧ (parseFileName l).episode = ensureTwoDigits e
      ∧ (parseFileName l).fullMatch = f := by
  rcases hasSEToken_findFirst h with ⟨⟨f, s, e⟩, ha⟩
  refine ⟨f, s, e, ha, ?_⟩
  rw [parseFileName_of_scan (seasonEpisodeScan_of_findSE ha)]
  exact ⟨rfl, rfl, rfl⟩

/-- Witness for C2 at the concrete filename `Show.S03E07.mkv`. -/
theorem seTokenParse_witness :
    hasSEToken "Show.S03E07.mkv".data = true
    ∧ ∃ f s e, findFirst matchSEAt "Show.S03E07.mkv".data = some (f, s, e)
      ∧ (parseFileName "Show.S03E07.mkv".data).season = ensureTwoDigits s
      ∧ (parseFileName "Show.S03E07.mkv".data).episode = ensureTwoDigits e
      ∧ (parseFileName "Show.S03E07.mkv".data).fullMatch = f :=
  ⟨by decide, seTokenParse "Show.S03E07.mkv".data (by decide)⟩

/-- Claim C8: the parser is a total function; when neither the season+episode
scan nor the episode-only scan matches, season, episode and fullMatch are all
returned empty rather than failing. -/
theorem parseNoMatch (l : List Char) (h1 : seasonEpisodeScan l = none)
    (h2 : episodeOnlyScan l = none) :
    (parseFileName l).season = [] ∧ (parseFileName l).episode = []
      ∧ (parseFileName l).fullMatch = [] := by
  rw [parseFileName_of_none h1 h2]
  exact ⟨rfl, rfl, rfl⟩

/-- Witness for C8 at the concrete filename `RandomMovie.mkv`. -/
theorem parseNoMatch_witness :
    (parseFileName "RandomMovie.mkv".data).season = []
    ∧ (parseFileName "RandomMovie.mkv".data).episode = []
    ∧ (parseFileName "RandomMovie.mkv".data).fullMatch = [] :=
  parseNoMatch "RandomMovie.mkv".data (by decide) (by decide)

/-- Claim C9: for every input, if the parsed episode is present then the
season is present, and whenever an episode-only rule fired the season is the
default "01". -/
theorem seasonInvariant (l : List Char) :
    ((parseFileName l).episode ≠ [] → (parseFileName l).season ≠ [])
    ∧ (∀ f e, seasonEpisodeScan l = none → episodeOnlyScan l = some (f, e) →
        (parseFileName l).season = ['0', '1']) := by
  constructor
  · intro hep
    cases hscan : seasonEpisodeScan l with
    | some x =>
      rcases x with ⟨f, s, e⟩
      rw [parseFileName_of_scan hscan]
      exact ensureTwoDigits_ne_nil (seasonEpisodeScan_season_ne hscan)
    | none =>
      cases hep2 : episodeOnlyScan l with
      | some x =>
        rcases x with ⟨f, e⟩
        rw [parseFileName_of_epOnly hscan hep2]
        simp
      | none =>
        rw [parseFileName_of_none hscan hep2] at hep
        simp at hep
  · intro f e h1 h2
    rw [parseFileName_of_epOnly h1 h2]

/-- Witness for C9 at the concrete filename `Show.Ep05.mkv`, where an
episode-only rule fires. -/
theorem seasonInvariant_witness :
    (parseFileName "Show.Ep05.mkv".data).season ≠ []
    ∧ (parseFileName "Show.Ep05.mkv".data).season = ['0', '1'] :=
  ⟨(seasonInvariant "Show.Ep05.mkv".data).1 (by decide),
   (seasonInvariant "Show.Ep05.mkv".data).2 "Ep05".data "05".data (by decide) (by decide)⟩

/-- Counterexample to C5: the filename `Show.S01E100.mkv` carries the
three-digit episode number 100, but the capture is limited to two digits, so
the parse result is "10", not "100". -/
theorem multiDigitEpisode_cex :
    (parseFileName "Show.S01E100.mkv".data).episode = "10".data
    ∧ (parseFileName "Show.S01E100.mkv".data).episode ≠ "100".data := by
  decide

/-- Claim C5 (amended): the S..E.. captures are one or two digits long - a
three-digit number is never captured whole - and the captured digit string is
returned unchanged whenever it already has two digits (only single digits are
prefixed with "0"). -/
theorem multiDigitEpisode_amended (l f s e : List Char)
    (h : findFirst matchSEAt l = some (f, s, e)) :
    1 ≤ e.length ∧ e.length ≤ 2
    ∧ (parseFileName l).episode = ensureTwoDigits e
    ∧ (2 ≤ e.length → (parseFileName l).episode = e) := by
  rcases findFirst_eq_some h with ⟨t, ht⟩
  have hcaps := matchSEAt_caps ht
  have hparse := parseFileName_of_scan (seasonEpisodeScan_of_findSE h)
  refine ⟨hcaps.2.2.1, hcaps.2.2.2, by rw [hparse], fun h2 => ?_⟩
  rw [hparse]
  exact ensureTwoDigits_of_length_ne_one (by omega)

/-- Witness for the amended C5 at the concrete filename `Show.S01E12.mkv`. -/
theorem multiDigitEpisode_amended_witness :
    1 ≤ "12".data.length ∧ "12".data.length ≤ 2
    ∧ (parseFileName "Show.S01E12.mkv".data).episode = ensureTwoDigits "12".data
    ∧ (2 ≤ "12".data.length → (parseFileName "Show.S01E12.mkv".data).episode = "12".data) :=
  multiDigitEpisode_amended "Show.S01E12.mkv".data "S01E12".data "01".data "12".data
    (by decide)

/-- Counterexample to C6: the scan is not case-insensitive for `HDR` - the
filename `Show.hdr.mkv` contains a word-bounded `hdr` yet the quality field
comes back empty, not "HDR". -/
theorem qualityScan_cex :
    (parseFileName "Show.hdr.mkv".data).videoFormat = []
    ∧ (parseFileName "Show.hdr.mkv".data).videoFormat ≠ "HDR".data := by
  decide

/-- Claim C6 (amended): the quality scan recognizes the word-bounded tokens
1080p, 720p, 2160p, 4k, 8k, 480p with either letter case but `HDR`, `HEVC`,
`H265` in upper case only; it collects all matches in order of appearance
without deduplication, uppercases each, drops `HEVC`/`H265`, and joins the
survivors with ".". -/
theorem qualityScan_amended (l : List Char) :
    (parseFileName l).videoFormat
      = List.intercalate ['.']
          (((findAllQuality l).map toUpperL).filter
            (fun f => !(f == "HEVC".data || f == "H265".data)))
    ∧ ∀ m, m ∈ findAllQuality l → m ∈ qualityLiterals := by
  refine ⟨?_, fun m hm => qualScanSkip_mem 0 none l hm⟩
  rw [parseFileName_videoFormat, parseQuality_eq]

/-- Witness for the amended C6: the match `1080p` found in
`X.1080p.HDR.mkv` is one of the literal vocabulary forms. -/
theorem qualityScan_amended_witness : "1080p".data ∈ qualityLiterals :=
  (qualityScan_amended "X.1080p.HDR.mkv".data).2 "1080p".data (by decide)

/-- Claim C10: for the filename `S02E05.S02E05.mkv` the matched span text
occurs twice, every occurrence is rewritten, so the find pattern carries four
capture groups while the replace template references only `\1` and `\2`. -/
theorem multiSpanGroups :
    countOcc (quoteMeta (parseFileName "S02E05.S02E05.mkv".data).fullMatch)
        (quoteMeta "S02E05.S02E05.mkv".data) = 2
    ∧ 2 < countOcc gCap (showRegexRules "S02E05.S02E05.mkv".data "Title".data "2020".data
        (parseFileName "S02E05.S02E05.mkv".data) mediaTypeTV 99 0).find
    ∧ countOcc gCap (showRegexRules "S02E05.S02E05.mkv".data "Title".data "2020".data
        (parseFileName "S02E05.S02E05.mkv".data) mediaTypeTV 99 0).find = 4
    ∧ occursIn "\\1".data (showRegexRules "S02E05.S02E05.mkv".data "Title".data "2020".data
        (parseFileName "S02E05.S02E05.mkv".data) mediaTypeTV 99 0).replace = true
    ∧ occursIn "\\2".data (showRegexRules "S02E05.S02E05.mkv".data "Title".data "2020".data
        (parseFileName "S02E05.S02E05.mkv".data) mediaTypeTV 99 0).replace = true
    ∧ occursIn "\\3".data (showRegexRules "S02E05.S02E05.mkv".data "Title".data "2020".data
        (parseFileName "S02E05.S02E05.mkv".data) mediaTypeTV 99 0).replace = false := by
  decide

/-- Counterexample to C4: on the Matrix scenario input the replace string the
program emits is not the claimed `黑客帝国.1999.1080p.{tmdbid=603}` - the
template always appends `;type=movie` inside the braces. -/
theorem movieScenario_cex :
    (showRegexRules "The.Matrix.1999.1080p.BluRay.x264".data "黑客帝国".data "1999".data
        (parseFileName "The.Matrix.1999.1080p.BluRay.x264".data) mediaTypeMovie 603 0).replace
      ≠ "黑客帝国.1999.1080p.\x7btmdbid=603\x7d".data := by
  decide

/-- Claim C4 (amended): for every movie input the find pattern is the
literal-escaped original filename with no capture groups and the replace
template is `<title>.<year>.<quality-lowercased>.{tmdbid=<id>;type=movie}`;
on the Matrix scenario the replace string is
`黑客帝国.1999.1080p.{tmdbid=603;type=movie}`. -/
theorem movieRule_amended :
    (∀ (name title year : List Char) (info : FileInfo) (tmdbID seasonOffset : Int),
      (showRegexRules name title year info mediaTypeMovie tmdbID seasonOffset).find
        = quoteMeta name
      ∧ (showRegexRules name title year info mediaTypeMovie tmdbID seasonOffset).replace
        = title ++ '.' :: year ++ '.' :: toLowerL info.videoFormat
            ++ ".\x7btmdbid=".data ++ itoa tmdbID ++ ";type=movie\x7d".data)
    ∧ showRegexRules "The.Matrix.1999.1080p.BluRay.x264".data "黑客帝国".data "1999".data
        (parseFileName "The.Matrix.1999.1080p.BluRay.x264".data) mediaTypeMovie 603 0
      = ⟨"The\\.Matrix\\.1999\\.1080p\\.BluRay\\.x264".data,
         "黑客帝国.1999.1080p.\x7btmdbid=603;type=movie\x7d".data⟩ := by
  constructor
  · intro name title year info tmdbID seasonOffset
    constructor <;> simp [showRegexRules]
  · decide

/-- Counterexample to C3: for the batch `[A.Title.S01E01.1080p.mkv]` with
fixed title `Title` a batch rule is emitted and the escaped common prefix is
`A\.`, yet the emitted find pattern is the escaped fixed title plus a fixed
tail and contains the escaped prefix nowhere - it is not built from the
escaped prefix and suffix. -/
theorem batchRule_cex :
    (generateRegexPattern ["A.Title.S01E01.1080p.mkv".data] "Title".data).1 = "A\\.".data
    ∧ emitsBatchRule ["A.Title.S01E01.1080p.mkv".data] "Title".data = true
    ∧ batchMatchPattern "Title".data
      = "Title\\.?.*?[Ss](\\d\x7b1,2\x7d)[Ee](\\d\x7b1,2\x7d)\\.?.*?[0-9]+[pPkK]\\.?.*".data
    ∧ occursIn "A\\.".data (batchMatchPattern "Title".data) = false := by
  decide

/-- Claim C3 (amended): for a non-empty batch, `generateRegexPattern` yields
no pattern (three empty strings) exactly when the fixed title is not a
case-insensitive substring of the first file or the first file's suffix
contains no `S<digits>E<digits>` span; the emitted batch find pattern is the
escaped fixed title followed by a fixed tail, independent of the computed
prefix and suffix, and the rule is additionally suppressed whenever the
derived common prefix is empty (title at position zero), even though a
pattern was derived. -/
theorem batchRule_amended (f : List Char) (fs : List (List Char)) (t : List Char) :
    (generateRegexPattern (f :: fs) t = ([], [], [])
      ↔ match indexOf (toLowerL t) (toLowerL (filepathBase f)) with
        | none => True
        | some idx => hasSESpan ((filepathBase f).drop (idx + t.length)) = false)
    ∧ batchMatchPattern t
      = quoteMeta t
        ++ "\\.?.*?[Ss](\\d\x7b1,2\x7d)[Ee](\\d\x7b1,2\x7d)\\.?.*?[0-9]+[pPkK]\\.?.*".data
    ∧ emitsBatchRule ["Title.S01E01.1080p.mkv".data] "Title".data = false
    ∧ generateRegexPattern ["Title.S01E01.1080p.mkv".data] "Title".data ≠ ([], [], []) := by
  refine ⟨?_, rfl, by decide, by decide⟩
  simp only [generateRegexPattern]
  cases hidx : indexOf (toLowerL t) (toLowerL (filepathBase f)) with
  | none => simp
  | some idx =>
    simp only
    by_cases hse : hasSESpan ((filepathBase f).drop (idx + t.length)) = true
    · rw [if_pos hse]
      constructor
      · intro h
        exfalso
        have h2 := congrArg (fun p => p.2.1) h
        simp only at h2
        have hne : ("S(\\d\x7b1,2\x7d)E(\\d\x7b1,2\x7d).*".data : List Char) ≠ [] := by decide
        exact hne (List.append_eq_nil.mp h2).1
      · intro h
        rw [hse] at h
        simp at h
    · rw [if_neg hse]
      simp only [Bool.not_eq_true] at hse
      simp [hse]

/-- Claim C7: a season offset of +1 applied to a parsed season "02" is
accepted exactly when the adjusted season stays positive and yields "03";
with a non-zero offset the replace template carries the literal adjusted
season (form `S03E\1`) and the find pattern's season digits are not
rewritten into a capture group - only the episode is. -/
theorem seasonOffsetApplied (name title year : List Char) (tmdbID : Int)
    (hs : (parseFileName name).season = ['0', '2']) :
    applySeasonOffset (parseFileName name).season 1 = some ['0', '3']
    ∧ (∀ off : Int, (applySeasonOffset ['0', '2'] off).isSome = true ↔ 0 < 2 + off)
    ∧ (showRegexRules name title year
        ⟨(parseFileName name).fullMatch, ['0', '3'], (parseFileName name).episode,
         (parseFileName name).videoFormat⟩ mediaTypeTV tmdbID 1).replace
      = title ++ '.' :: year ++ ".S03E\\1.".data
          ++ toLowerL (parseFileName name).videoFormat
          ++ ".\x7btmdbid=".data ++ itoa tmdbID ++ ";type=tv\x7d".data
    ∧ sepPattern ⟨(parseFileName name).fullMatch, ['0', '3'], (parseFileName name).episode,
         (parseFileName name).videoFormat⟩ 1
      = goReplaceAll (quoteMeta (parseFileName name).fullMatch)
          (parseFileName name).episode gCap := by
  have hmt : ¬(mediaTypeTV = mediaTypeMovie) := by decide
  have hone : ¬((1 : Int) = 0 ∧ (['0', '3'] : List Char) ≠ ['0', '1']) := by
    intro h
    exact absurd h.1 (by norm_num)
  refine ⟨by rw [hs]; decide, fun off => ?_, ?_, ?_⟩
  · have ha : atoi ['0', '2'] = some 2 := by decide
    simp only [applySeasonOffset, ha, Option.getD_some]
    by_cases h : (2 : Int) + off ≤ 0
    · rw [if_pos h]
      simp
      omega
    · rw [if_neg h]
      simp
      omega
  · simp only [showRegexRules, if_neg hmt, if_neg hone]
    simp
  · simp only [sepPattern, if_neg hone]

/-- Witness for C7 at the concrete filename `Show.S02E05.mkv`. -/
theorem seasonOffsetApplied_witness :
    applySeasonOffset (parseFileName "Show.S02E05.mkv".data).season 1 = some ['0', '3']
    ∧ (∀ off : Int, (applySeasonOffset ['0', '2'] off).isSome = true ↔ 0 < 2 + off)
    ∧ (showRegexRules "Show.S02E05.mkv".data "T".data "2020".data
        ⟨(parseFileName "Show.S02E05.mkv".data).fullMatch, ['0', '3'],
         (parseFileName "Show.S02E05.mkv".data).episode,
         (parseFileName "Show.S02E05.mkv".data).videoFormat⟩ mediaTypeTV 7 1).replace
      = "T".data ++ '.' :: "2020".data ++ ".S03E\\1.".data
          ++ toLowerL (parseFileName "Show.S02E05.mkv".data).videoFormat
          ++ ".\x7btmdbid=".data ++ itoa 7 ++ ";type=tv\x7d".data
    ∧ sepPattern ⟨(parseFileName "Show.S02E05.mkv".data).fullMatch, ['0', '3'],
         (parseFileName "Show.S02E05.mkv".data).episode,
         (parseFileName "Show.S02E05.mkv".data).videoFormat⟩ 1
      = goReplaceAll (quoteMeta (parseFileName "Show.S02E05.mkv".data).fullMatch)
          (parseFileName "Show.S02E05.mkv".data).episode gCap :=
  seasonOffsetApplied "Show.S02E05.mkv".data "T".data "2020".data 7 (by decide)

/-- Counterexample to C1: for `Season 5 x03x Episode 3.mkv` the parse gives
season "05", episode "03" and a non-empty fullMatch, the episode digits "03"
are rewritten at a position that is not the episode token, and substituting
the season and episode values back into the synthesized capture groups as the
`S\1E\2` template assigns them does not reproduce the escaped fullMatch. -/
theorem tvRoundTrip_cex :
    (parseFileName "Season 5 x03x Episode 3.mkv".data).fullMatch ≠ []
    ∧ (parseFileName "Season 5 x03x Episode 3.mkv".data).season ≠ ['0', '1']
    ∧ reconstitute true (parseFileName "Season 5 x03x Episode 3.mkv".data).season
        (parseFileName "Season 5 x03x Episode 3.mkv".data).episode
        (sepPattern (parseFileName "Season 5 x03x Episode 3.mkv".data) 0)
      ≠ quoteMeta (parseFileName "Season 5 x03x Episode 3.mkv".data).fullMatch := by
  decide

/-- Claim C1 (amended): the TV find pattern is obtained by rewriting the
season digits (before the episode digits) inside the escaped fullMatch into
capture groups, and substituting the original zero-padded season and episode
values back into those groups reconstitutes the escaped fullMatch exactly,
provided the season and episode digit strings each occur exactly once in the
escaped fullMatch with the season occurrence first (the `noOccurBefore` /
`occursIn` side conditions below), which is the shape every plain
`SxxEyy`-style span has. -/
theorem tvRoundTrip_amended (name title year : List Char) (tmdbID : Int)
    (s e full a b1 b2 : List Char)
    (hfull : (parseFileName name).fullMatch = full)
    (hs : (parseFileName name).season = s)
    (he : (parseFileName name).episode = e)
    (hfm : full ≠ [])
    (hs01 : s ≠ ['0', '1'])
    (hsplit : quoteMeta full = a ++ s ++ (b1 ++ e ++ b2))
    (hA1 : noOccurBefore s (a ++ s ++ (b1 ++ e ++ b2)) a.length = true)
    (hB1 : occursIn s (b1 ++ e ++ b2) = false)
    (hA2 : noOccurBefore e ((a ++ gCap ++ b1) ++ e ++ b2) (a ++ gCap ++ b1).length = true)
    (hB2 : occursIn e b2 = false)
    (hA3 : noOccurBefore gCap (a ++ gCap ++ (b1 ++ gCap ++ b2)) a.length = true)
    (hA4 : noOccurBefore gCap ((a ++ s ++ b1) ++ gCap ++ b2) (a ++ s ++ b1).length = true)
    (hB4 : occursIn gCap b2 = false) :
    sepPattern (parseFileName name) 0 = (a ++ gCap ++ b1) ++ gCap ++ b2
    ∧ reconstitute true s e (sepPattern (parseFileName name) 0) = quoteMeta full
    ∧ (showRegexRules name title year (parseFileName name) mediaTypeTV tmdbID 0).find
      = goReplaceAll (quoteMeta name) (quoteMeta full) (sepPattern (parseFileName name) 0) := by
  have hsne : s ≠ [] := occursIn_false_ne_nil hB1
  have hene : e ≠ [] := occursIn_false_ne_nil hB2
  have hgne : gCap ≠ [] := by decide
  have bridge1 : a ++ gCap ++ (b1 ++ e ++ b2) = (a ++ gCap ++ b1) ++ e ++ b2 := by
    simp [List.append_assoc]
  have bridge2 : (a ++ gCap ++ b1) ++ gCap ++ b2 = a ++ gCap ++ (b1 ++ gCap ++ b2) := by
    simp [List.append_assoc]
  have bridge3 : a ++ s ++ (b1 ++ gCap ++ b2) = (a ++ s ++ b1) ++ gCap ++ b2 := by
    simp [List.append_assoc]
  have bridge4 : (a ++ s ++ b1) ++ e ++ b2 = a ++ s ++ (b1 ++ e ++ b2) := by
    simp [List.append_assoc]
  have hstep1 : replaceAll s gCap (quoteMeta full) = (a ++ gCap ++ b1) ++ e ++ b2 := by
    rw [hsplit]
    exact (replaceAll_split a (b1 ++ e ++ b2) hsne (noOccurBefore_spec hA1) hB1).trans bridge1
  have hstep2 : replaceAll e gCap ((a ++ gCap ++ b1) ++ e ++ b2)
      = (a ++ gCap ++ b1) ++ gCap ++ b2 :=
    replaceAll_split (a ++ gCap ++ b1) b2 hene (noOccurBefore_spec hA2) hB2
  have hsep : sepPattern (parseFileName name) 0 = (a ++ gCap ++ b1) ++ gCap ++ b2 := by
    simp only [sepPattern, hfull, hs, he]
    rw [if_pos ⟨trivial, hs01⟩]
    rw [goReplaceAll_of_ne_nil _ _ hsne, hstep1, goReplaceAll_of_ne_nil _ _ hene, hstep2]
  refine ⟨hsep, ?_, ?_⟩
  · rw [hsep]
    unfold reconstitute
    rw [if_pos rfl]
    have hr1 : replaceOnce gCap s (a ++ gCap ++ (b1 ++ gCap ++ b2))
        = a ++ s ++ (b1 ++ gCap ++ b2) :=
      replaceOnce_split a (b1 ++ gCap ++ b2) hgne (noOccurBefore_spec hA3)
    have hr2 : replaceAll gCap e ((a ++ s ++ b1) ++ gCap ++ b2)
        = (a ++ s ++ b1) ++ e ++ b2 :=
      replaceAll_split (a ++ s ++ b1) b2 hgne (noOccurBefore_spec hA4) hB4
    rw [bridge2, hr1, bridge3, hr2, bridge4, ← hsplit]
  · have hmt : ¬(mediaTypeTV = mediaTypeMovie) := by decide
    simp only [showRegexRules, if_neg hmt]
    simp only [tvFindPattern, hfull]
    rw [if_pos hfm]

/-- Witness for the amended C1 at the concrete filename `Show.S02E05.mkv`
(season "02", episode "05", span "S02E05" split as S | 02 | E | 05 |). -/
theorem tvRoundTrip_amended_witness :
    sepPattern (parseFileName "Show.S02E05.mkv".data) 0
      = (['S'] ++ gCap ++ ['E']) ++ gCap ++ []
    ∧ reconstitute true "02".data "05".data
        (sepPattern (parseFileName "Show.S02E05.mkv".data) 0)
      = quoteMeta "S02E05".data
    ∧ (showRegexRules "Show.S02E05.mkv".data "T".data "2020".data
        (parseFileName "Show.S02E05.mkv".data) mediaTypeTV 7 0).find
      = goReplaceAll (quoteMeta "Show.S02E05.mkv".data) (quoteMeta "S02E05".data)
          (sepPattern (parseFileName "Show.S02E05.mkv".data) 0) :=
  tvRoundTrip_amended "Show.S02E05.mkv".data "T".data "2020".data 7
    "02".data "05".data "S02E05".data ['S'] ['E'] []
    (by decide) (by decide) (by decide) (by decide) (by decide) (by decide)
    (by decide) (by decide) (by decide) (by decide) (by decide) (by decide) (by decide)
